import Mathlib

/-!
Shallow embedding of the egui_graph transform / interaction / computed-state
subsystem, translated from `src/graph_view.rs` and `src/graph_wrapper.rs`.

Modelling conventions:
* `f32` arithmetic is modelled with exact rationals (`ℚ`); egui `Vec2`/`Pos2`
  become a pair of rationals with componentwise arithmetic, matching egui's
  operator implementations (`v + w`, `v - w`, `v * s`, `v / s`).
* `petgraph` node storage is modelled as a `List Node`; the `NodeIndex` of a
  node is its position in the list, and graph traversal order is list order.
* Mutating methods become functions returning the new node list together with
  the list of `Change` records sent to the changes channel, in emission order.
* Code of the repository that is referenced but not present in `src/`
  (`Metadata`, `StateComputed`, the settings structs, the drawer) is modelled
  from the spec; each such definition carries a doc comment saying so.
-/

/-- 2D vector over `ℚ`, modelling egui `Vec2`/`Pos2` with exact arithmetic in
place of `f32`. -/
structure Vec2 where
  x : ℚ
  y : ℚ
deriving DecidableEq, Repr

instance : Add Vec2 := ⟨fun a b => ⟨a.x + b.x, a.y + b.y⟩⟩

instance : Sub Vec2 := ⟨fun a b => ⟨a.x - b.x, a.y - b.y⟩⟩

instance : HMul Vec2 ℚ Vec2 := ⟨fun v s => ⟨v.x * s, v.y * s⟩⟩

instance : HDiv Vec2 ℚ Vec2 := ⟨fun v s => ⟨v.x / s, v.y / s⟩⟩

def Vec2.zero : Vec2 := ⟨0, 0⟩

@[simp] theorem Vec2.add_x (a b : Vec2) : (a + b).x = a.x + b.x := rfl

@[simp] theorem Vec2.add_y (a b : Vec2) : (a + b).y = a.y + b.y := rfl

@[simp] theorem Vec2.sub_x (a b : Vec2) : (a - b).x = a.x - b.x := rfl

@[simp] theorem Vec2.sub_y (a b : Vec2) : (a - b).y = a.y - b.y := rfl

@[simp] theorem Vec2.mul_x (v : Vec2) (s : ℚ) : (v * s).x = v.x * s := rfl

@[simp] theorem Vec2.mul_y (v : Vec2) (s : ℚ) : (v * s).y = v.y * s := rfl

@[simp] theorem Vec2.div_x (v : Vec2) (s : ℚ) : (v / s).x = v.x / s := rfl

@[simp] theorem Vec2.div_y (v : Vec2) (s : ℚ) : (v / s).y = v.y / s := rfl

theorem Vec2.ext_xy {a b : Vec2} (hx : a.x = b.x) (hy : a.y = b.y) : a = b := by
  cases a; cases b; cases hx; cases hy; rfl

/-- Squared Euclidean length, `|v|²`.  Used to express egui's
`Vec2::length() <= r` comparisons without square roots. -/
def Vec2.length_sq (v : Vec2) : ℚ := v.x ^ 2 + v.y ^ 2

/-- Axis-aligned rectangle, modelling egui `Rect`. -/
structure Rect where
  min : Vec2
  max : Vec2
deriving DecidableEq, Repr

/-- egui `Rect::size()`. -/
def Rect.size (r : Rect) : Vec2 := r.max - r.min

/-- egui `Rect::center()`. -/
def Rect.center (r : Rect) : Vec2 := (r.min + r.max) / (2 : ℚ)

/-- Modelled from the spec (`metadata.rs` is not under `src/`): the persisted
viewport — `pan` (2D translation), `zoom` (scalar), `first_frame` flag —
exactly the fields `graph_view.rs` reads and writes (`meta.pan`, `meta.zoom`,
`meta.first_frame`). -/
structure Metadata where
  zoom : ℚ
  pan : Vec2
  first_frame : Bool
deriving DecidableEq, Repr

/-- Modelled from the spec (`settings.rs` is not under `src/`): the interaction
settings fields referenced by `graph_view.rs`. -/
structure SettingsInteraction where
  clicking_enabled : Bool
  selection_enabled : Bool
  selection_multi_enabled : Bool
  dragging_enabled : Bool
deriving DecidableEq, Repr

/-- Modelled from the spec (`settings.rs` is not under `src/`): the navigation
settings fields referenced by `graph_view.rs`. -/
structure SettingsNavigation where
  fit_to_screen_enabled : Bool
  zoom_and_pan_enabled : Bool
  zoom_speed : ℚ
  screen_padding : ℚ
deriving DecidableEq, Repr

/-- Graph→screen transform.  Modelled from the spec: §4.3
`screen = graph * zoom + pan`; the drawing code that applies this direction is
not under `src/` (it is implied by `fit_to_screen`'s
`new_pan = rect.center() - graph_center * new_zoom`). -/
def screen_from_graph (g : Vec2) (pan : Vec2) (zoom : ℚ) : Vec2 :=
  g * zoom + pan

/-- Screen→graph transform, from `GraphWrapper::node_by_pos`
(graph_wrapper.rs:41): `pos_in_graph = (pos - meta.pan).to_vec2() / meta.zoom`. -/
def graph_from_screen (s : Vec2) (pan : Vec2) (zoom : ℚ) : Vec2 :=
  (s - pan) / zoom

/-- `GraphView::zoom` (graph_view.rs:348-362): zooms by `delta` and
compensates pan so the zoom center stays at the same screen point.
Navigation-event emission (`set_pan`/`set_zoom` publishing `Pan`/`Zoom`
events) does not affect the viewport fields and is not modelled. -/
def GraphView.zoom (rect : Rect) (delta : ℚ) (zoom_center : Option Vec2)
    (meta : Metadata) : Metadata :=
  let center_pos : Vec2 := match zoom_center with
    | some c => c - rect.min
    | none => rect.center - rect.min
  let graph_center_pos : Vec2 := (center_pos - meta.pan) / meta.zoom
  let factor : ℚ := 1 + delta
  let new_zoom : ℚ := meta.zoom * factor
  let pan_delta : Vec2 := graph_center_pos * meta.zoom - graph_center_pos * new_zoom
  let new_pan : Vec2 := meta.pan + pan_delta
  { meta with pan := new_pan, zoom := new_zoom }

/-- C2: For every pan `p`, zoom `z > 0` and graph point `g`, converting to
screen coordinates by `screen = g * z + p` and back by
`graph = (screen - p) / z` yields `g` again: the screen↔graph transform is
invertible whenever `z > 0` (exactly, in the rational model). -/
theorem transform_roundtrip (p : Vec2) (z : ℚ) (g : Vec2) (hz : 0 < z) :
    graph_from_screen (screen_from_graph g p z) p z = g := by
  apply Vec2.ext_xy <;>
    · simp only [graph_from_screen, screen_from_graph, Vec2.add_x, Vec2.add_y,
        Vec2.sub_x, Vec2.sub_y, Vec2.mul_x, Vec2.mul_y, Vec2.div_x, Vec2.div_y]
      field_simp

theorem transform_roundtrip_witness :
    (0 : ℚ) < 2 ∧
      graph_from_screen (screen_from_graph ⟨3, -4⟩ ⟨7, 5⟩ 2) ⟨7, 5⟩ 2 = ⟨3, -4⟩ :=
  ⟨by norm_num, transform_roundtrip ⟨7, 5⟩ 2 ⟨3, -4⟩ (by norm_num)⟩

/-- C1: For every initial pan, every strictly positive zoom, every zoom step
`delta` and every cursor position, `GraphView::zoom` maps the graph point that
was under the cursor before the zoom (computed cursor-relatively, as the code
does: `(cursor - rect.min - pan) / zoom`) to the same screen point
(`cursor - rect.min` in the rect-relative screen frame) after the zoom. -/
theorem zoom_preserves_cursor_point (rect : Rect) (delta : ℚ) (cursor : Vec2)
    (meta : Metadata) (hz : 0 < meta.zoom) :
    screen_from_graph
        (graph_from_screen (cursor - rect.min) meta.pan meta.zoom)
        (GraphView.zoom rect delta (some cursor) meta).pan
        (GraphView.zoom rect delta (some cursor) meta).zoom
      = cursor - rect.min := by
  have hz' : meta.zoom ≠ 0 := ne_of_gt hz
  apply Vec2.ext_xy <;>
    · simp only [screen_from_graph, graph_from_screen, GraphView.zoom,
        Vec2.add_x, Vec2.add_y, Vec2.sub_x, Vec2.sub_y, Vec2.mul_x, Vec2.mul_y,
        Vec2.div_x, Vec2.div_y]
      field_simp
      ring

theorem zoom_preserves_cursor_point_witness :
    (0 : ℚ) < 1 ∧
      screen_from_graph
          (graph_from_screen (⟨400, 300⟩ - (⟨⟨0, 0⟩, ⟨800, 600⟩⟩ : Rect).min)
            (⟨1, ⟨0, 0⟩, true⟩ : Metadata).pan (⟨1, ⟨0, 0⟩, true⟩ : Metadata).zoom)
          (GraphView.zoom ⟨⟨0, 0⟩, ⟨800, 600⟩⟩ (1/10) (some ⟨400, 300⟩) ⟨1, ⟨0, 0⟩, true⟩).pan
          (GraphView.zoom ⟨⟨0, 0⟩, ⟨800, 600⟩⟩ (1/10) (some ⟨400, 300⟩) ⟨1, ⟨0, 0⟩, true⟩).zoom
        = ⟨400, 300⟩ - (⟨⟨0, 0⟩, ⟨800, 600⟩⟩ : Rect).min :=
  ⟨by norm_num,
    zoom_preserves_cursor_point ⟨⟨0, 0⟩, ⟨800, 600⟩⟩ (1/10) ⟨400, 300⟩
      ⟨1, ⟨0, 0⟩, true⟩ (by norm_num)⟩

/-- A graph node as the interaction code sees it: graph-space `location` and
the `selected`/`dragged` flags (`Node` in the repo, client payload omitted),
plus the per-node computed `radius` used by hit-testing (spec §4.2: derived
per frame from style parameters; `StateComputedNode::radius` is not under
`src/`, so the radius is carried as an abstract per-node value). -/
structure Node where
  location : Vec2
  selected : Bool
  dragged : Bool
  radius : ℚ
deriving DecidableEq, Repr

/-- One record on the changes channel (`Change`/`ChangeNode` in the repo):
subject node index, kind, before- and after-values. -/
inductive Change where
  | selection_changed (idx : Nat) (before after : Bool)
  | clicked (idx : Nat)
  | double_clicked (idx : Nat)
  | dragged_changed (idx : Nat) (before after : Bool)
  | location_moved (idx : Nat) (before after : Vec2)
deriving DecidableEq, Repr

def Change.is_selection_changed : Change → Bool
  | .selection_changed _ _ _ => true
  | _ => false

def Change.is_location_moved : Change → Bool
  | .location_moved _ _ _ => true
  | _ => false

/-- Modelled from the spec (§4.2; `computed.rs`/`state_computed.rs` are not
under `src/`): the per-frame computed state — the selected-id set and the
at-most-one dragged id, built by scanning node flags. -/
structure ComputedState where
  selected : List Nat
  dragged : Option Nat
deriving DecidableEq, Repr

/-- Modelled from the spec (§4.2): ids of the nodes whose `selected` flag is
set, in traversal order, starting the index count at `k`. -/
def selected_ids_from (k : Nat) : List Node → List Nat
  | [] => []
  | n :: rest =>
    if n.selected then k :: selected_ids_from (k + 1) rest
    else selected_ids_from (k + 1) rest

def selected_ids (g : List Node) : List Nat := selected_ids_from 0 g

/-- Modelled from the spec (§4.2): the (at most one) dragged id — the first
node in traversal order whose `dragged` flag is set. -/
def dragged_id_from (k : Nat) : List Node → Option Nat
  | [] => none
  | n :: rest => if n.dragged then some k else dragged_id_from (k + 1) rest

def dragged_id (g : List Node) : Option Nat := dragged_id_from 0 g

/-- `GraphView::compute_state`, restricted to the flag-scanning pass the
claims need (the per-node radius is carried in each `Node`). -/
def compute_state (g : List Node) : ComputedState :=
  ⟨selected_ids g, dragged_id g⟩

/-- `length v ≤ r` (egui `(n.location() - pos_in_graph).length() <= radius`)
expressed without square roots: for `d2 = |v|²` this is `0 ≤ r ∧ d2 ≤ r²`. -/
def within_radius (v : Vec2) (r : ℚ) : Bool :=
  decide (0 ≤ r ∧ v.length_sq ≤ r ^ 2)

/-- The scan inside `GraphWrapper::node_by_pos`: the first node (in traversal
order, indices counted from `k`) whose disk of its computed radius contains
the graph-space point. -/
def find_node_from (k : Nat) (pos_in_graph : Vec2) : List Node → Option (Nat × Node)
  | [] => none
  | n :: rest =>
    if within_radius (n.location - pos_in_graph) n.radius then some (k, n)
    else find_node_from (k + 1) pos_in_graph rest

/-- `GraphWrapper::node_by_pos` (graph_wrapper.rs:34-44), also standing for
`Graph::node_by_screen_pos` called by `graph_view.rs` (that variant is not
under `src/` and per the spec performs the same screen→graph conversion and
boundary hit-test): transform `pos` to graph coordinates, then `find` the
first node whose boundary circle contains it. -/
def GraphWrapper.node_by_pos (g : List Node) (meta : Metadata) (pos : Vec2) :
    Option (Nat × Node) :=
  let pos_in_graph : Vec2 := (pos - meta.pan) / meta.zoom
  find_node_from 0 pos_in_graph g

/-- `GraphView::toggle_selection_node` (graph_view.rs:364-374).  The source
`unwrap`s the lookup; an absent index (a caller contract violation, spec §7)
is totalized to a no-op and is unreachable under the theorems' hypotheses. -/
def GraphView.toggle_selection_node (idx : Nat) (g : List Node) :
    List Node × List Change :=
  match g.get? idx with
  | none => (g, [])
  | some n =>
    (g.set idx { n with selected := !n.selected },
      [Change.selection_changed idx n.selected (!n.selected)])

/-- `GraphView::deselect_all` (graph_view.rs:392-396): toggle every node in
`comp.selected`, accumulating changes in emission order. -/
def GraphView.deselect_all (comp : ComputedState) (g : List Node) :
    List Node × List Change :=
  comp.selected.foldl
    (fun acc idx =>
      let r := GraphView.toggle_selection_node idx acc.1
      (r.1, acc.2 ++ r.2))
    (g, [])

/-- `GraphView::move_node` (graph_view.rs:398-408); absent index totalized to
a no-op as in `toggle_selection_node`. -/
def GraphView.move_node (idx : Nat) (delta : Vec2) (g : List Node) :
    List Node × List Change :=
  match g.get? idx with
  | none => (g, [])
  | some n =>
    (g.set idx { n with location := n.location + delta },
      [Change.location_moved idx n.location (n.location + delta)])

/-- `GraphView::set_dragged` (graph_view.rs:410-420); absent index totalized
to a no-op as in `toggle_selection_node`. -/
def GraphView.set_dragged (idx : Nat) (val : Bool) (g : List Node) :
    List Node × List Change :=
  match g.get? idx with
  | none => (g, [])
  | some n =>
    (g.set idx { n with dragged := val },
      [Change.dragged_changed idx n.dragged val])

/-- `GraphView::handle_node_click` (graph_view.rs:213-239). -/
def GraphView.handle_node_click (si : SettingsInteraction) (idx : Nat)
    (comp : ComputedState) (g : List Node) : List Node × List Change :=
  if ¬si.clicking_enabled ∧ ¬si.selection_enabled then (g, [])
  else
    let c1 : List Change := if si.clicking_enabled then [Change.clicked idx] else []
    if ¬si.selection_enabled then (g, c1)
    else
      match g.get? idx with
      | none => (g, c1)
      | some n =>
        if n.selected then
          let r := GraphView.toggle_selection_node idx g
          (r.1, c1 ++ r.2)
        else
          let r1 := if ¬si.selection_multi_enabled then GraphView.deselect_all comp g
            else (g, [])
          let r2 := GraphView.toggle_selection_node idx r1.1
          (r2.1, c1 ++ r1.2 ++ r2.2)

/-- `GraphView::handle_node_double_click` (graph_view.rs:203-211): emit-only,
no stored state. -/
def GraphView.handle_node_double_click (si : SettingsInteraction) (idx : Nat)
    (g : List Node) : List Node × List Change :=
  if ¬si.clicking_enabled then (g, [])
  else (g, [Change.double_clicked idx])

/-- The pointer state `handle_click` reads from the egui `Response`. -/
structure ClickInput where
  clicked : Bool
  double_clicked : Bool
  hover_pos : Vec2
deriving DecidableEq, Repr

/-- `GraphView::handle_click` (graph_view.rs:166-201). -/
def GraphView.handle_click (si : SettingsInteraction) (inp : ClickInput)
    (meta : Metadata) (comp : ComputedState) (g : List Node) :
    List Node × List Change :=
  if ¬inp.clicked ∧ ¬inp.double_clicked then (g, [])
  else
    let clickable := si.clicking_enabled ∨ si.selection_enabled
      ∨ si.selection_multi_enabled
    if ¬clickable then (g, [])
    else
      match GraphWrapper.node_by_pos g meta inp.hover_pos with
      | none =>
        let selectable := si.selection_enabled ∨ si.selection_multi_enabled
        if selectable then GraphView.deselect_all comp g else (g, [])
      | some (node_idx, _) =>
        if inp.double_clicked then GraphView.handle_node_double_click si node_idx g
        else GraphView.handle_node_click si node_idx comp g

/-- The pointer state `handle_node_drag` reads from the egui `Response`. -/
structure DragInput where
  drag_started : Bool
  dragged : Bool
  drag_released : Bool
  hover_pos : Vec2
  drag_delta : Vec2
deriving DecidableEq, Repr

/-- `GraphView::handle_node_drag` (graph_view.rs:241-268). -/
def GraphView.handle_node_drag (si : SettingsInteraction) (inp : DragInput)
    (comp : ComputedState) (meta : Metadata) (g : List Node) :
    List Node × List Change :=
  if ¬si.dragging_enabled then (g, [])
  else
    let r1 :=
      if inp.drag_started then
        match GraphWrapper.node_by_pos g meta inp.hover_pos with
        | some (idx, _) => GraphView.set_dragged idx true g
        | none => (g, [])
      else (g, [])
    let r2 :=
      match comp.dragged with
      | some n_idx_dragged =>
        if inp.dragged ∧ (0 < |inp.drag_delta.x| ∨ 0 < |inp.drag_delta.y|) then
          GraphView.move_node n_idx_dragged (inp.drag_delta / meta.zoom) r1.1
        else (r1.1, [])
      | none => (r1.1, [])
    let r3 :=
      match comp.dragged with
      | some n_idx => if inp.drag_released then GraphView.set_dragged n_idx false r2.1
        else (r2.1, [])
      | none => (r2.1, [])
    (r3.1, r1.2 ++ r2.2 ++ r3.2)

/-- `GraphView::fit_to_screen` (graph_view.rs:270-304). -/
def GraphView.fit_to_screen (nav : SettingsNavigation) (rect : Rect)
    (meta : Metadata) (bounds : Rect) : Metadata :=
  let diag0 : Vec2 := bounds.max - bounds.min
  let diag : Vec2 := if diag0 = Vec2.zero then ⟨1, 100⟩ else diag0
  let graph_size : Vec2 := diag * (1 + nav.screen_padding)
  let canvas_size : Vec2 := rect.size
  let zoom_x : ℚ := canvas_size.x / graph_size.x
  let zoom_y : ℚ := canvas_size.y / graph_size.y
  let new_zoom : ℚ := min zoom_x zoom_y
  let zoom_delta : ℚ := new_zoom / meta.zoom - 1
  let meta1 := GraphView.zoom rect zoom_delta none meta
  let graph_center : Vec2 := (bounds.min + bounds.max) / (2 : ℚ)
  let new_pan : Vec2 := rect.center - graph_center * new_zoom
  { meta1 with pan := new_pan }

/-- Rational sign: `1`, `-1` or `0`.  Models `f32::signum` at the call site in
`handle_zoom`, where the argument `1 - delta` is nonzero (`delta == 1` is
guarded out), so the zero case — where `f32::signum` would give `±1` by sign
bit — is unreachable. -/
def sgn (x : ℚ) : ℚ := if 0 < x then 1 else if x < 0 then -1 else 0

/-- `GraphView::handle_zoom` (graph_view.rs:317-331): `delta` is the frame's
gesture `zoom_delta()`, `hover_pos` the pointer position. -/
def GraphView.handle_zoom (nav : SettingsNavigation) (rect : Rect) (delta : ℚ)
    (hover_pos : Option Vec2) (meta : Metadata) : Metadata :=
  if ¬nav.zoom_and_pan_enabled then meta
  else if delta = 1 then meta
  else GraphView.zoom rect (nav.zoom_speed * sgn (1 - delta)) hover_pos meta

/-- C10: For every zoom gesture with `delta ≠ 1` (zoom/pan enabled,
nonnegative configured speed), the step applied to the zoom is exactly
`zoom_speed * signum(1 - delta)`: its magnitude equals `zoom_speed`
regardless of the magnitude of the gesture delta, and a gesture delta
greater than 1 produces the negative step, i.e.
`new_zoom = zoom * (1 - zoom_speed)`. -/
theorem handle_zoom_fixed_step (nav : SettingsNavigation) (rect : Rect)
    (delta : ℚ) (hover : Option Vec2) (meta : Metadata)
    (hen : nav.zoom_and_pan_enabled = true) (hdel : delta ≠ 1)
    (hsp : 0 ≤ nav.zoom_speed) :
    (GraphView.handle_zoom nav rect delta hover meta).zoom
        = meta.zoom * (1 + nav.zoom_speed * sgn (1 - delta))
      ∧ |nav.zoom_speed * sgn (1 - delta)| = nav.zoom_speed
      ∧ (1 < delta →
          (GraphView.handle_zoom nav rect delta hover meta).zoom
            = meta.zoom * (1 - nav.zoom_speed)) := by
  have h1 : GraphView.handle_zoom nav rect delta hover meta
      = GraphView.zoom rect (nav.zoom_speed * sgn (1 - delta)) hover meta := by
    simp [GraphView.handle_zoom, hen, hdel]
  have h2 : (GraphView.zoom rect (nav.zoom_speed * sgn (1 - delta)) hover meta).zoom
      = meta.zoom * (1 + nav.zoom_speed * sgn (1 - delta)) := rfl
  refine ⟨by rw [h1, h2], ?_, ?_⟩
  · rcases lt_trichotomy delta 1 with h | h | h
    · have : (0 : ℚ) < 1 - delta := by linarith
      simp [sgn, this, abs_of_nonneg hsp]
    · exact absurd h hdel
    · have hneg : (1 : ℚ) - delta < 0 := by linarith
      have hnlt : ¬(0 : ℚ) < 1 - delta := by linarith
      simp [sgn, hnlt, hneg, abs_of_nonneg hsp]
  · intro h
    have hneg : (1 : ℚ) - delta < 0 := by linarith
    have hnlt : ¬(0 : ℚ) < 1 - delta := by linarith
    have hs : sgn (1 - delta) = -1 := by simp [sgn, hnlt, hneg]
    rw [h1, h2, hs]
    ring

theorem handle_zoom_fixed_step_witness :
    (⟨false, true, 1/10, 3/10⟩ : SettingsNavigation).zoom_and_pan_enabled = true
      ∧ (2 : ℚ) ≠ 1 ∧ (0 : ℚ) ≤ (⟨false, true, 1/10, 3/10⟩ : SettingsNavigation).zoom_speed
      ∧ ((GraphView.handle_zoom ⟨false, true, 1/10, 3/10⟩ ⟨⟨0, 0⟩, ⟨800, 600⟩⟩ 2 none
            ⟨1, ⟨0, 0⟩, true⟩).zoom
          = (⟨1, ⟨0, 0⟩, true⟩ : Metadata).zoom * (1 + (1/10 : ℚ) * sgn (1 - 2))
        ∧ |(1/10 : ℚ) * sgn (1 - 2)| = (1/10 : ℚ)
        ∧ ((1 : ℚ) < 2 →
            (GraphView.handle_zoom ⟨false, true, 1/10, 3/10⟩ ⟨⟨0, 0⟩, ⟨800, 600⟩⟩ 2 none
              ⟨1, ⟨0, 0⟩, true⟩).zoom
              = (⟨1, ⟨0, 0⟩, true⟩ : Metadata).zoom * (1 - (1/10 : ℚ)))) :=
  ⟨rfl, by norm_num, by norm_num,
    handle_zoom_fixed_step ⟨false, true, 1/10, 3/10⟩ ⟨⟨0, 0⟩, ⟨800, 600⟩⟩ 2 none
      ⟨1, ⟨0, 0⟩, true⟩ rfl (by norm_num) (by norm_num)⟩

/-- Spec-side definition (§4.4): the bounding box inflated about its center by
the `screen_padding` fraction — same center, size scaled by `1 + padding`. -/
def Rect.padded (bounds : Rect) (padding : ℚ) : Rect :=
  ⟨bounds.center - bounds.size * (1 + padding) / (2 : ℚ),
    bounds.center + bounds.size * (1 + padding) / (2 : ℚ)⟩

theorem Rect.padded_size (bounds : Rect) (padding : ℚ) :
    (bounds.padded padding).size
      = ⟨(bounds.max - bounds.min).x * (1 + padding),
          (bounds.max - bounds.min).y * (1 + padding)⟩ := by
  apply Vec2.ext_xy <;>
    · simp only [Rect.padded, Rect.size, Rect.center, Vec2.add_x, Vec2.add_y,
        Vec2.sub_x, Vec2.sub_y, Vec2.mul_x, Vec2.mul_y, Vec2.div_x, Vec2.div_y]
      ring

theorem Rect.padded_center (bounds : Rect) (padding : ℚ) :
    (bounds.padded padding).center = bounds.center := by
  apply Vec2.ext_xy <;>
    · simp only [Rect.padded, Rect.size, Rect.center, Vec2.add_x, Vec2.add_y,
        Vec2.sub_x, Vec2.sub_y, Vec2.mul_x, Vec2.mul_y, Vec2.div_x, Vec2.div_y]
      ring

/-- Closed form of `fit_to_screen` in the non-degenerate case. -/
theorem fit_to_screen_eq (nav : SettingsNavigation) (rect : Rect)
    (meta : Metadata) (bounds : Rect)
    (hne : bounds.max - bounds.min ≠ Vec2.zero) (hz : meta.zoom ≠ 0) :
    GraphView.fit_to_screen nav rect meta bounds
      = { zoom := min (rect.size.x / ((bounds.max - bounds.min).x * (1 + nav.screen_padding)))
              (rect.size.y / ((bounds.max - bounds.min).y * (1 + nav.screen_padding))),
          pan := rect.center - ((bounds.min + bounds.max) / (2 : ℚ))
              * min (rect.size.x / ((bounds.max - bounds.min).x * (1 + nav.screen_padding)))
                  (rect.size.y / ((bounds.max - bounds.min).y * (1 + nav.screen_padding))),
          first_frame := meta.first_frame } := by
  simp only [GraphView.fit_to_screen, GraphView.zoom, if_neg hne]
  cases meta with
  | mk zoom pan ff =>
    simp only [Metadata.mk.injEq, Vec2.mul_x, Vec2.mul_y]
    refine ⟨?_, trivial, trivial⟩
    simp only at hz
    field_simp

/-- Closed form of `fit_to_screen` in the degenerate (empty/single-point
bounding box) case: the fallback extent `(1, 100)` is substituted. -/
theorem fit_to_screen_eq_degenerate (nav : SettingsNavigation) (rect : Rect)
    (meta : Metadata) (bounds : Rect)
    (hdeg : bounds.max = bounds.min) (hz : meta.zoom ≠ 0) :
    GraphView.fit_to_screen nav rect meta bounds
      = { zoom := min (rect.size.x / (1 * (1 + nav.screen_padding)))
              (rect.size.y / (100 * (1 + nav.screen_padding))),
          pan := rect.center - bounds.min
              * min (rect.size.x / (1 * (1 + nav.screen_padding)))
                  (rect.size.y / (100 * (1 + nav.screen_padding))),
          first_frame := meta.first_frame } := by
  have hzero : bounds.max - bounds.min = Vec2.zero := by
    rw [hdeg]
    apply Vec2.ext_xy <;> simp [Vec2.zero]
  have hcenter : (bounds.min + bounds.max) / (2 : ℚ) = bounds.min := by
    rw [hdeg]
    apply Vec2.ext_xy <;>
      · simp only [Vec2.add_x, Vec2.add_y, Vec2.div_x, Vec2.div_y]
        ring
  simp only [GraphView.fit_to_screen, GraphView.zoom, if_pos hzero, hcenter]
  cases meta with
  | mk zoom pan ff =>
    simp only [Metadata.mk.injEq, Vec2.mul_x, Vec2.mul_y]
    refine ⟨?_, trivial, trivial⟩
    simp only at hz
    field_simp

/-- C3: For every non-degenerate graph bounding box `B` (positive extent in
both axes) and every canvas rectangle, `fit_to_screen` sets zoom to
`min(canvas.width / paddedB.width, canvas.height / paddedB.height)` where
`paddedB` is `B` inflated by the configured `screen_padding` fraction, and
sets pan so that the padded bounding box's center maps to the canvas center
under the new zoom. -/
theorem fit_to_screen_correct (nav : SettingsNavigation) (rect : Rect)
    (meta : Metadata) (bounds : Rect) (hz : 0 < meta.zoom)
    (hdx : 0 < (bounds.max - bounds.min).x)
    (hdy : 0 < (bounds.max - bounds.min).y) :
    (GraphView.fit_to_screen nav rect meta bounds).zoom
        = min (rect.size.x / (bounds.padded nav.screen_padding).size.x)
            (rect.size.y / (bounds.padded nav.screen_padding).size.y)
      ∧ screen_from_graph (bounds.padded nav.screen_padding).center
          (GraphView.fit_to_screen nav rect meta bounds).pan
          (GraphView.fit_to_screen nav rect meta bounds).zoom
        = rect.center := by
  have hne : bounds.max - bounds.min ≠ Vec2.zero := by
    intro h
    rw [h] at hdx
    exact absurd hdx (by norm_num [Vec2.zero])
  rw [fit_to_screen_eq nav rect meta bounds hne (ne_of_gt hz), Rect.padded_size,
    Rect.padded_center]
  constructor
  · rfl
  · apply Vec2.ext_xy <;>
      · simp only [screen_from_graph, Rect.center, Vec2.add_x, Vec2.add_y,
          Vec2.sub_x, Vec2.sub_y, Vec2.mul_x, Vec2.mul_y, Vec2.div_x, Vec2.div_y]
        ring

theorem fit_to_screen_correct_witness :
    (0 : ℚ) < (⟨1, ⟨0, 0⟩, true⟩ : Metadata).zoom
      ∧ 0 < ((⟨⟨0, 0⟩, ⟨100, 100⟩⟩ : Rect).max - (⟨⟨0, 0⟩, ⟨100, 100⟩⟩ : Rect).min).x
      ∧ 0 < ((⟨⟨0, 0⟩, ⟨100, 100⟩⟩ : Rect).max - (⟨⟨0, 0⟩, ⟨100, 100⟩⟩ : Rect).min).y
      ∧ ((GraphView.fit_to_screen ⟨false, true, 1/10, 3/10⟩ ⟨⟨0, 0⟩, ⟨800, 600⟩⟩
            ⟨1, ⟨0, 0⟩, true⟩ ⟨⟨0, 0⟩, ⟨100, 100⟩⟩).zoom
          = min ((⟨⟨0, 0⟩, ⟨800, 600⟩⟩ : Rect).size.x
                / ((⟨⟨0, 0⟩, ⟨100, 100⟩⟩ : Rect).padded (3/10)).size.x)
              ((⟨⟨0, 0⟩, ⟨800, 600⟩⟩ : Rect).size.y
                / ((⟨⟨0, 0⟩, ⟨100, 100⟩⟩ : Rect).padded (3/10)).size.y)
        ∧ screen_from_graph ((⟨⟨0, 0⟩, ⟨100, 100⟩⟩ : Rect).padded (3/10)).center
            (GraphView.fit_to_screen ⟨false, true, 1/10, 3/10⟩ ⟨⟨0, 0⟩, ⟨800, 600⟩⟩
              ⟨1, ⟨0, 0⟩, true⟩ ⟨⟨0, 0⟩, ⟨100, 100⟩⟩).pan
            (GraphView.fit_to_screen ⟨false, true, 1/10, 3/10⟩ ⟨⟨0, 0⟩, ⟨800, 600⟩⟩
              ⟨1, ⟨0, 0⟩, true⟩ ⟨⟨0, 0⟩, ⟨100, 100⟩⟩).zoom
          = (⟨⟨0, 0⟩, ⟨800, 600⟩⟩ : Rect).center) :=
  ⟨by norm_num, by norm_num [Vec2.sub_x], by norm_num [Vec2.sub_y],
    fit_to_screen_correct ⟨false, true, 1/10, 3/10⟩ ⟨⟨0, 0⟩, ⟨800, 600⟩⟩
      ⟨1, ⟨0, 0⟩, true⟩ ⟨⟨0, 0⟩, ⟨100, 100⟩⟩ (by norm_num)
      (by norm_num [Vec2.sub_x]) (by norm_num [Vec2.sub_y])⟩

/-- C6: When `fit_to_screen` runs on an empty or single-point graph, whose
bounding box has zero extent, the fixed fallback extent `(1, 100)` is
substituted before the zoom division: every divisor is nonzero, the resulting
zoom is the (finite, positive) fallback-derived value
`min(canvas.w / (1·(1+padding)), canvas.h / (100·(1+padding)))`, and the pan
is the well-defined value centering the (point) bounding box. -/
theorem fit_to_screen_degenerate_fallback (nav : SettingsNavigation)
    (rect : Rect) (meta : Metadata) (bounds : Rect)
    (hdeg : bounds.max = bounds.min) (hz : 0 < meta.zoom)
    (hp : 0 ≤ nav.screen_padding) (hcx : 0 < rect.size.x)
    (hcy : 0 < rect.size.y) :
    ((1 : ℚ) * (1 + nav.screen_padding) ≠ 0
        ∧ (100 : ℚ) * (1 + nav.screen_padding) ≠ 0 ∧ meta.zoom ≠ 0)
      ∧ (GraphView.fit_to_screen nav rect meta bounds).zoom
          = min (rect.size.x / (1 * (1 + nav.screen_padding)))
              (rect.size.y / (100 * (1 + nav.screen_padding)))
      ∧ 0 < (GraphView.fit_to_screen nav rect meta bounds).zoom
      ∧ (GraphView.fit_to_screen nav rect meta bounds).pan
          = rect.center - bounds.min
              * (GraphView.fit_to_screen nav rect meta bounds).zoom := by
  have h1p : (0 : ℚ) < 1 + nav.screen_padding := by linarith
  have heq := fit_to_screen_eq_degenerate nav rect meta bounds hdeg (ne_of_gt hz)
  refine ⟨⟨by positivity, by positivity, ne_of_gt hz⟩, by rw [heq], ?_, by rw [heq]⟩
  rw [heq]
  exact lt_min (div_pos hcx (by linarith)) (div_pos hcy (by linarith))

theorem fit_to_screen_degenerate_fallback_witness :
    (⟨⟨5, 7⟩, ⟨5, 7⟩⟩ : Rect).max = (⟨⟨5, 7⟩, ⟨5, 7⟩⟩ : Rect).min
      ∧ (0 : ℚ) < (⟨1, ⟨0, 0⟩, true⟩ : Metadata).zoom
      ∧ (0 : ℚ) ≤ (⟨false, true, 1/10, 0⟩ : SettingsNavigation).screen_padding
      ∧ 0 < (⟨⟨0, 0⟩, ⟨800, 600⟩⟩ : Rect).size.x
      ∧ 0 < (⟨⟨0, 0⟩, ⟨800, 600⟩⟩ : Rect).size.y
      ∧ (((1 : ℚ) * (1 + (0 : ℚ)) ≠ 0 ∧ (100 : ℚ) * (1 + (0 : ℚ)) ≠ 0
            ∧ (⟨1, ⟨0, 0⟩, true⟩ : Metadata).zoom ≠ 0)
        ∧ (GraphView.fit_to_screen ⟨false, true, 1/10, 0⟩ ⟨⟨0, 0⟩, ⟨800, 600⟩⟩
              ⟨1, ⟨0, 0⟩, true⟩ ⟨⟨5, 7⟩, ⟨5, 7⟩⟩).zoom
            = min ((⟨⟨0, 0⟩, ⟨800, 600⟩⟩ : Rect).size.x / (1 * (1 + (0 : ℚ))))
                ((⟨⟨0, 0⟩, ⟨800, 600⟩⟩ : Rect).size.y / (100 * (1 + (0 : ℚ))))
        ∧ 0 < (GraphView.fit_to_screen ⟨false, true, 1/10, 0⟩ ⟨⟨0, 0⟩, ⟨800, 600⟩⟩
              ⟨1, ⟨0, 0⟩, true⟩ ⟨⟨5, 7⟩, ⟨5, 7⟩⟩).zoom
        ∧ (GraphView.fit_to_screen ⟨false, true, 1/10, 0⟩ ⟨⟨0, 0⟩, ⟨800, 600⟩⟩
              ⟨1, ⟨0, 0⟩, true⟩ ⟨⟨5, 7⟩, ⟨5, 7⟩⟩).pan
            = (⟨⟨0, 0⟩, ⟨800, 600⟩⟩ : Rect).center - (⟨⟨5, 7⟩, ⟨5, 7⟩⟩ : Rect).min
                * (GraphView.fit_to_screen ⟨false, true, 1/10, 0⟩ ⟨⟨0, 0⟩, ⟨800, 600⟩⟩
                    ⟨1, ⟨0, 0⟩, true⟩ ⟨⟨5, 7⟩, ⟨5, 7⟩⟩).zoom) :=
  ⟨rfl, by norm_num, by norm_num, by norm_num [Rect.size, Vec2.sub_x],
    by norm_num [Rect.size, Vec2.sub_y],
    fit_to_screen_degenerate_fallback ⟨false, true, 1/10, 0⟩ ⟨⟨0, 0⟩, ⟨800, 600⟩⟩
      ⟨1, ⟨0, 0⟩, true⟩ ⟨⟨5, 7⟩, ⟨5, 7⟩⟩ rfl (by norm_num) (by norm_num)
      (by norm_num [Rect.size, Vec2.sub_x]) (by norm_num [Rect.size, Vec2.sub_y])⟩

/-- C7: While a node is in the Dragging state (per the frame's computed state)
and the frame's drag delta is non-zero — a pure drag-continuation frame, so no
drag-start or drag-release is being processed — the node's graph-space
position changes by exactly the screen-space drag delta divided by the current
zoom, every other node is untouched, and exactly one `LocationMoved` record is
emitted, whose before/after values are the old and new positions. -/
theorem drag_moves_scaled_delta (si : SettingsInteraction) (inp : DragInput)
    (comp : ComputedState) (meta : Metadata) (g : List Node) (i : Nat) (n : Node)
    (hen : si.dragging_enabled = true) (hstart : inp.drag_started = false)
    (hdragging : inp.dragged = true) (hcomp : comp.dragged = some i)
    (hrel : inp.drag_released = false)
    (hdelta : 0 < |inp.drag_delta.x| ∨ 0 < |inp.drag_delta.y|)
    (hz : 0 < meta.zoom) (hn : g.get? i = some n) :
    (GraphView.handle_node_drag si inp comp meta g).1.get? i
        = some { n with location := n.location + inp.drag_delta / meta.zoom }
      ∧ (∀ j, j ≠ i →
          (GraphView.handle_node_drag si inp comp meta g).1.get? j = g.get? j)
      ∧ (GraphView.handle_node_drag si inp comp meta g).2
          = [Change.location_moved i n.location
              (n.location + inp.drag_delta / meta.zoom)] := by
  have hi : i < g.length := by
    by_contra hge
    rw [List.get?_eq_none.mpr (Nat.le_of_not_lt hge)] at hn
    exact Option.noConfusion hn
  have hd' : ¬inp.drag_delta.x = 0 ∨ ¬inp.drag_delta.y = 0 := by
    rcases hdelta with h | h
    · exact Or.inl (abs_pos.mp h)
    · exact Or.inr (abs_pos.mp h)
  have hn' : g[i]? = some n := by rw [← List.get?_eq_getElem?]; exact hn
  have hmain : GraphView.handle_node_drag si inp comp meta g
      = (g.set i { n with location := n.location + inp.drag_delta / meta.zoom },
          [Change.location_moved i n.location
            (n.location + inp.drag_delta / meta.zoom)]) := by
    simp [GraphView.handle_node_drag, hen, hstart, hdragging, hcomp, hrel, hd',
      GraphView.move_node, hn']
  rw [hmain]
  refine ⟨?_, fun j hj => ?_, rfl⟩
  · rw [List.get?_eq_getElem?]
    exact List.getElem?_set_eq_of_lt _ hi
  · rw [List.get?_eq_getElem?, List.get?_eq_getElem?]
    exact List.getElem?_set_ne (Ne.symm hj)

theorem drag_moves_scaled_delta_witness :
    (⟨false, false, false, true⟩ : SettingsInteraction).dragging_enabled = true
      ∧ (⟨false, true, false, ⟨0, 0⟩, ⟨10, -5⟩⟩ : DragInput).drag_started = false
      ∧ (⟨false, true, false, ⟨0, 0⟩, ⟨10, -5⟩⟩ : DragInput).dragged = true
      ∧ (compute_state [(⟨⟨0, 0⟩, false, true, 5⟩ : Node)]).dragged = some 0
      ∧ (⟨false, true, false, ⟨0, 0⟩, ⟨10, -5⟩⟩ : DragInput).drag_released = false
      ∧ (0 < |(⟨false, true, false, ⟨0, 0⟩, ⟨10, -5⟩⟩ : DragInput).drag_delta.x|
          ∨ 0 < |(⟨false, true, false, ⟨0, 0⟩, ⟨10, -5⟩⟩ : DragInput).drag_delta.y|)
      ∧ (0 : ℚ) < (⟨2, ⟨0, 0⟩, false⟩ : Metadata).zoom
      ∧ [(⟨⟨0, 0⟩, false, true, 5⟩ : Node)].get? 0 = some ⟨⟨0, 0⟩, false, true, 5⟩
      ∧ ((GraphView.handle_node_drag ⟨false, false, false, true⟩
            ⟨false, true, false, ⟨0, 0⟩, ⟨10, -5⟩⟩
            (compute_state [(⟨⟨0, 0⟩, false, true, 5⟩ : Node)]) ⟨2, ⟨0, 0⟩, false⟩
            [⟨⟨0, 0⟩, false, true, 5⟩]).1.get? 0
          = some { (⟨⟨0, 0⟩, false, true, 5⟩ : Node) with
              location := (⟨0, 0⟩ : Vec2) + (⟨10, -5⟩ : Vec2) / ((2 : ℚ)) }
        ∧ (∀ j, j ≠ 0 →
            (GraphView.handle_node_drag ⟨false, false, false, true⟩
              ⟨false, true, false, ⟨0, 0⟩, ⟨10, -5⟩⟩
              (compute_state [(⟨⟨0, 0⟩, false, true, 5⟩ : Node)]) ⟨2, ⟨0, 0⟩, false⟩
              [⟨⟨0, 0⟩, false, true, 5⟩]).1.get? j
              = [(⟨⟨0, 0⟩, false, true, 5⟩ : Node)].get? j)
        ∧ (GraphView.handle_node_drag ⟨false, false, false, true⟩
            ⟨false, true, false, ⟨0, 0⟩, ⟨10, -5⟩⟩
            (compute_state [(⟨⟨0, 0⟩, false, true, 5⟩ : Node)]) ⟨2, ⟨0, 0⟩, false⟩
            [⟨⟨0, 0⟩, false, true, 5⟩]).2
            = [Change.location_moved 0 (⟨0, 0⟩ : Vec2)
                ((⟨0, 0⟩ : Vec2) + (⟨10, -5⟩ : Vec2) / ((2 : ℚ)))]) :=
  ⟨rfl, rfl, rfl, rfl, rfl, Or.inl (by norm_num), by norm_num, rfl,
    drag_moves_scaled_delta ⟨false, false, false, true⟩
      ⟨false, true, false, ⟨0, 0⟩, ⟨10, -5⟩⟩
      (compute_state [(⟨⟨0, 0⟩, false, true, 5⟩ : Node)]) ⟨2, ⟨0, 0⟩, false⟩
      [⟨⟨0, 0⟩, false, true, 5⟩] 0 ⟨⟨0, 0⟩, false, true, 5⟩
      rfl rfl rfl rfl rfl (Or.inl (by norm_num)) (by norm_num) rfl⟩

/-- Selected flag of the node at index `i` (`false` if the index is absent). -/
def node_selected (g : List Node) (i : Nat) : Bool :=
  ((g.get? i).map Node.selected).getD false

theorem node_selected_lt_length {g : List Node} {i : Nat}
    (h : node_selected g i = true) : i < g.length := by
  by_contra hge
  rw [node_selected, List.get?_eq_none.mpr (Nat.le_of_not_lt hge)] at h
  simp at h

theorem selected_ids_from_nil_of_none {g : List Node}
    (h : ∀ i, node_selected g i = false) : ∀ k, selected_ids_from k g = [] := by
  induction g with
  | nil => intro k; rfl
  | cons n rest ih =>
    intro k
    have h0 : n.selected = false := by
      simpa [node_selected] using h 0
    have htail : ∀ i, node_selected rest i = false := by
      intro i
      simpa [node_selected] using h (i + 1)
    simp [selected_ids_from, h0, ih htail]

theorem selected_ids_from_single {g : List Node} {b : Nat}
    (h : ∀ i, node_selected g i = decide (i = b)) (hb : b < g.length) :
    ∀ k, selected_ids_from k g = [k + b] := by
  induction g generalizing b with
  | nil => exact absurd hb (by simp)
  | cons n rest ih =>
    intro k
    cases b with
    | zero =>
      have h0 : n.selected = true := by
        simpa [node_selected] using h 0
      have htail : ∀ i, node_selected rest i = false := by
        intro i
        simpa [node_selected] using h (i + 1)
      simp [selected_ids_from, h0, selected_ids_from_nil_of_none htail (k + 1)]
    | succ b' =>
      have h0 : n.selected = false := by
        simpa [node_selected] using h 0
      have htail : ∀ i, node_selected rest i = decide (i = b') := by
        intro i
        have := h (i + 1)
        simpa [node_selected] using this
      have hb' : b' < rest.length := by
        simpa [Nat.succ_lt_succ_iff] using hb
      have hrec := ih htail hb' (k + 1)
      simp only [selected_ids_from, h0, Bool.false_eq_true, if_false, hrec]
      congr 1
      omega

theorem selected_ids_single {g : List Node} {b : Nat}
    (h : ∀ i, node_selected g i = decide (i = b)) (hb : b < g.length) :
    selected_ids g = [b] := by
  simpa using selected_ids_from_single h hb 0

theorem toggle_selection_node_eq {g : List Node} {i : Nat} {n : Node}
    (hn : g.get? i = some n) :
    GraphView.toggle_selection_node i g
      = (g.set i { n with selected := !n.selected },
          [Change.selection_changed i n.selected (!n.selected)]) := by
  simp only [GraphView.toggle_selection_node, hn]

theorem node_selected_set (g : List Node) (i : Nat) (n : Node)
    (hi : i < g.length) (j : Nat) :
    node_selected (g.set i n) j = if j = i then n.selected else node_selected g j := by
  by_cases hj : j = i
  · subst hj
    simp [node_selected, List.get?_eq_getElem?, List.getElem?_set_eq_of_lt _ hi]
  · simp [node_selected, List.get?_eq_getElem?, List.getElem?_set_ne (Ne.symm hj), hj]

theorem deselect_all_single {g : List Node} {a : Nat} {na : Node}
    (comp : ComputedState) (hcomp : comp.selected = [a]) (hna : g.get? a = some na) :
    GraphView.deselect_all comp g
      = (g.set a { na with selected := !na.selected },
          [Change.selection_changed a na.selected (!na.selected)]) := by
  simp [GraphView.deselect_all, hcomp, toggle_selection_node_eq hna]

/-- C5: With multi-select disabled and selection enabled, if node `a` is the
only selected node and node `b ≠ a` is click-hit, then afterwards the selected
set equals `{b}`, and the `SelectionChanged` records emitted are exactly
`a : true→false` followed by `b : false→true`. -/
theorem selection_exclusive (si : SettingsInteraction) (g : List Node) (a b : Nat)
    (hsel : si.selection_enabled = true) (hmulti : si.selection_multi_enabled = false)
    (hone : ∀ i, node_selected g i = decide (i = a))
    (hb : b < g.length) (hab : a ≠ b) :
    selected_ids (GraphView.handle_node_click si b (compute_state g) g).1 = [b]
      ∧ (GraphView.handle_node_click si b (compute_state g) g).2.filter
          Change.is_selection_changed
        = [Change.selection_changed a true false,
            Change.selection_changed b false true] := by
  have hasel : node_selected g a = true := by simpa using hone a
  have ha : a < g.length := node_selected_lt_length hasel
  obtain ⟨na, hna⟩ : ∃ na, g.get? a = some na := by
    cases h : g.get? a with
    | none => rw [node_selected, h] at hasel; simp at hasel
    | some v => exact ⟨v, rfl⟩
  have hnasel : na.selected = true := by
    rw [node_selected, hna] at hasel; simpa using hasel
  obtain ⟨nb, hnb⟩ : ∃ nb, g.get? b = some nb := by
    cases h : g.get? b with
    | none => exact absurd (List.get?_eq_none.mp h) (Nat.not_le_of_lt hb)
    | some v => exact ⟨v, rfl⟩
  have hnbsel : nb.selected = false := by
    have h := hone b
    rw [node_selected, hnb] at h
    simpa [Ne.symm hab] using h
  have hcomp : (compute_state g).selected = [a] := selected_ids_single hone ha
  have hnb1 : (g.set a { na with selected := false }).get? b = some nb := by
    rw [List.get?_eq_getElem?, List.getElem?_set_ne hab, ← List.get?_eq_getElem?]
    exact hnb
  have hstep : GraphView.handle_node_click si b (compute_state g) g
      = ((g.set a { na with selected := false }).set b { nb with selected := true },
          (if si.clicking_enabled then [Change.clicked b] else [])
            ++ [Change.selection_changed a true false]
            ++ [Change.selection_changed b false true]) := by
    have hd := deselect_all_single (compute_state g) hcomp hna
    rw [hnasel] at hd
    simp only [Bool.not_true] at hd
    have ht2 := toggle_selection_node_eq hnb1
    rw [hnbsel] at ht2
    simp only [Bool.not_false] at ht2
    simp only [GraphView.handle_node_click, hsel, hmulti, hnb, hnbsel, hd]
    simp [ht2]
  rw [hstep]
  constructor
  · have hlen1 : (g.set a { na with selected := false }).length = g.length :=
      List.length_set g a _
    have hb1 : b < (g.set a { na with selected := false }).length := by
      rw [hlen1]; exact hb
    have htwo : ∀ i,
        node_selected ((g.set a { na with selected := false }).set b
          { nb with selected := true }) i = decide (i = b) := by
      intro i
      rw [node_selected_set _ b _ hb1 i, node_selected_set g a _ ha i]
      by_cases hib : i = b
      · simp [hib]
      · by_cases hia : i = a
        · simp [hib, hia]
        · rw [if_neg hib, if_neg hia, hone i]
          simp [hia, hib]
    exact selected_ids_single htwo (by rw [List.length_set, hlen1]; exact hb)
  · cases hc : si.clicking_enabled <;>
      simp [hc, List.filter, Change.is_selection_changed]

/-- Scenario B graph: node 0 at (0,0) selected, node 1 at (100,100)
unselected. -/
def c5_g : List Node :=
  [⟨⟨0, 0⟩, true, false, 5⟩, ⟨⟨100, 100⟩, false, false, 5⟩]

theorem selection_exclusive_witness :
    ((⟨true, true, false, false⟩ : SettingsInteraction).selection_enabled = true
        ∧ (⟨true, true, false, false⟩ : SettingsInteraction).selection_multi_enabled = false
        ∧ (∀ i, node_selected c5_g i = decide (i = 0))
        ∧ 1 < c5_g.length ∧ (0 : Nat) ≠ 1)
      ∧ selected_ids (GraphView.handle_node_click ⟨true, true, false, false⟩ 1
            (compute_state c5_g) c5_g).1 = [1]
      ∧ (GraphView.handle_node_click ⟨true, true, false, false⟩ 1
            (compute_state c5_g) c5_g).2.filter Change.is_selection_changed
        = [Change.selection_changed 0 true false,
            Change.selection_changed 1 false true] := by
  have hone : ∀ i, node_selected c5_g i = decide (i = 0) := by
    intro i
    match i with
    | 0 => rfl
    | 1 => rfl
    | (n + 2) => rfl
  exact ⟨⟨rfl, rfl, hone, by decide, by decide⟩,
    selection_exclusive ⟨true, true, false, false⟩ c5_g 0 1 rfl rfl hone
      (by decide) (by decide)⟩

/-- Settings with clicking disabled and (single-)selection disabled, but
multi-selection enabled. -/
def c8_si : SettingsInteraction := ⟨false, false, true, false⟩

/-- One selected node at the origin. -/
def c8_g : List Node := [⟨⟨0, 0⟩, true, false, 1⟩]

/-- C8 counterexample: with `clicking_enabled = false` and
`selection_enabled = false` (but `selection_multi_enabled = true`, a setting
the claim leaves unconstrained), a completed click on empty space *does*
mutate node state — it deselects the selected node — and *does* emit a
`SelectionChanged` record, refuting the claim as stated. -/
theorem click_disabled_not_noop_cex :
    c8_si.clicking_enabled = false ∧ c8_si.selection_enabled = false
      ∧ (⟨true, false, ⟨100, 100⟩⟩ : ClickInput).clicked = true
      ∧ GraphView.handle_click c8_si ⟨true, false, ⟨100, 100⟩⟩ ⟨1, ⟨0, 0⟩, true⟩
          (compute_state c8_g) c8_g
        = ([⟨⟨0, 0⟩, false, false, 1⟩], [Change.selection_changed 0 true false])
      ∧ (GraphView.handle_click c8_si ⟨true, false, ⟨100, 100⟩⟩ ⟨1, ⟨0, 0⟩, true⟩
          (compute_state c8_g) c8_g).1 ≠ c8_g := by
  refine ⟨rfl, rfl, rfl, ?_, ?_⟩ <;>
    norm_num [GraphView.handle_click, GraphWrapper.node_by_pos, find_node_from,
      within_radius, Vec2.length_sq, GraphView.deselect_all,
      GraphView.toggle_selection_node, compute_state, selected_ids,
      selected_ids_from, dragged_id, c8_si, c8_g]

/-- C8 (amended): if clicking, selection *and* multi-selection are all
disabled, then a completed click or double-click (hit or miss) leaves the node
list unchanged and emits no Change record. -/
theorem click_fully_disabled_noop (dragging : Bool) (inp : ClickInput)
    (meta : Metadata) (comp : ComputedState) (g : List Node)
    (h : inp.clicked = true ∨ inp.double_clicked = true) :
    GraphView.handle_click ⟨false, false, false, dragging⟩ inp meta comp g
      = (g, []) := by
  simp [GraphView.handle_click]

theorem click_fully_disabled_noop_witness :
    ((⟨true, false, ⟨0, 0⟩⟩ : ClickInput).clicked = true
        ∨ (⟨true, false, ⟨0, 0⟩⟩ : ClickInput).double_clicked = true)
      ∧ GraphView.handle_click ⟨false, false, false, false⟩ ⟨true, false, ⟨0, 0⟩⟩
          ⟨1, ⟨0, 0⟩, true⟩ (compute_state c8_g) c8_g
        = (c8_g, []) :=
  ⟨Or.inl rfl,
    click_fully_disabled_noop false ⟨true, false, ⟨0, 0⟩⟩ ⟨1, ⟨0, 0⟩, true⟩
      (compute_state c8_g) c8_g (Or.inl rfl)⟩

/-- One frame of the drag pipeline: recompute the frame's computed state from
the node flags (spec §4.2) and run `handle_node_drag` — the only per-frame
transition that mutates `dragged` flags. -/
def frame_step (si : SettingsInteraction) (meta : Metadata) (inp : DragInput)
    (g : List Node) : List Node × List Change :=
  GraphView.handle_node_drag si inp (compute_state g) meta g

/-- Run a sequence of frames' drag handling. -/
def run_frames (si : SettingsInteraction) (meta : Metadata)
    (inps : List DragInput) (g : List Node) : List Node :=
  inps.foldl (fun acc inp => (frame_step si meta inp acc).1) g

/-- Number of nodes whose `dragged` flag is set. -/
def dragged_count (g : List Node) : Nat := (g.filter Node.dragged).length

theorem dragged_count_cons (n : Node) (rest : List Node) :
    dragged_count (n :: rest)
      = (if n.dragged then 1 else 0) + dragged_count rest := by
  by_cases h : n.dragged = true <;>
    · simp [dragged_count, List.filter_cons, h]
      try omega

theorem dragged_count_set_le (g : List Node) (i : Nat) (n : Node) :
    dragged_count (g.set i n) ≤ dragged_count g + 1 := by
  induction g generalizing i with
  | nil => simp [dragged_count]
  | cons hd rest ih =>
    cases i with
    | zero =>
      rw [List.set_cons_zero, dragged_count_cons, dragged_count_cons]
      have : (if n.dragged then 1 else 0) ≤ 1 := by split <;> omega
      omega
    | succ i' =>
      rw [List.set_cons_succ, dragged_count_cons, dragged_count_cons]
      have := ih i'
      omega

theorem dragged_count_set_flag_eq {g : List Node} {i : Nat} {n m : Node}
    (hn : g.get? i = some n) (hm : m.dragged = n.dragged) :
    dragged_count (g.set i m) = dragged_count g := by
  induction g generalizing i with
  | nil => simp at hn
  | cons hd rest ih =>
    cases i with
    | zero =>
      have : hd = n := by simpa using hn
      subst this
      rw [List.set_cons_zero, dragged_count_cons, dragged_count_cons, hm]
    | succ i' =>
      have hn' : rest.get? i' = some n := by simpa using hn
      rw [List.set_cons_succ, dragged_count_cons, dragged_count_cons, ih hn']

theorem dragged_count_set_false_le {g : List Node} {i : Nat} {n : Node}
    (hn : g.get? i = some n) :
    dragged_count (g.set i { n with dragged := false }) ≤ dragged_count g := by
  induction g generalizing i with
  | nil => simp at hn
  | cons hd rest ih =>
    cases i with
    | zero =>
      have he : hd = n := by simpa using hn
      rw [List.set_cons_zero, dragged_count_cons, dragged_count_cons, he]
      have h1 : ({ n with dragged := false } : Node).dragged = false := rfl
      rw [h1]
      simp only [Bool.false_eq_true, if_false]
      split <;> omega
    | succ i' =>
      have hn' : rest.get? i' = some n := by simpa using hn
      rw [List.set_cons_succ, dragged_count_cons, dragged_count_cons]
      have := ih hn'
      omega

theorem set_dragged_true_count_le {g : List Node} (i : Nat)
    (h : dragged_count g = 0) :
    dragged_count (GraphView.set_dragged i true g).1 ≤ 1 := by
  unfold GraphView.set_dragged
  cases hn : g.get? i with
  | none => simp [h]
  | some n =>
    have := dragged_count_set_le g i { n with dragged := true }
    simp only
    omega

theorem move_node_count_eq (i : Nat) (d : Vec2) (g : List Node) :
    dragged_count (GraphView.move_node i d g).1 = dragged_count g := by
  unfold GraphView.move_node
  cases hn : g.get? i with
  | none => rfl
  | some n =>
    simp only
    exact dragged_count_set_flag_eq hn rfl

theorem set_dragged_false_count_le (i : Nat) (g : List Node) :
    dragged_count (GraphView.set_dragged i false g).1 ≤ dragged_count g := by
  unfold GraphView.set_dragged
  cases hn : g.get? i with
  | none => exact le_refl _
  | some n =>
    simp only
    exact dragged_count_set_false_le hn

theorem frame_step_dragged_le (si : SettingsInteraction) (meta : Metadata)
    (inp : DragInput) (g : List Node) (h1 : dragged_count g ≤ 1)
    (h2 : inp.drag_started = true → dragged_count g = 0) :
    dragged_count (frame_step si meta inp g).1 ≤ 1 := by
  by_cases hen : si.dragging_enabled = true <;>
    by_cases hs : inp.drag_started = true <;>
    by_cases hrel : inp.drag_released = true <;>
    by_cases hmv : inp.dragged = true
      ∧ (0 < |inp.drag_delta.x| ∨ 0 < |inp.drag_delta.y|) <;>
    rcases hcomp : (compute_state g).dragged with _ | i <;>
    rcases hfind : GraphWrapper.node_by_pos g meta inp.hover_pos with _ | ⟨idx, nd⟩ <;>
    simp only [frame_step, GraphView.handle_node_drag, hen, hs, hrel, hmv, hcomp,
      hfind, not_true, not_false_iff, not_true_eq_false, not_false_eq_true,
      Bool.true_eq_false, Bool.false_eq_true, if_true, if_false, ite_true,
      ite_false, eq_self_iff_true, and_true, true_and,
      and_false, false_and, not_and, if_neg, not_not] <;>
    first
      | exact h1
      | simp [h1]
      | exact set_dragged_true_count_le _ (h2 hs)
      | (rw [move_node_count_eq]
         first
           | exact h1
           | exact set_dragged_true_count_le _ (h2 hs))
      | (refine le_trans (set_dragged_false_count_le _ _) ?_
         first
           | exact h1
           | exact set_dragged_true_count_le _ (h2 hs)
           | (rw [move_node_count_eq]
              first
                | exact h1
                | exact set_dragged_true_count_le _ (h2 hs)))

/-- Input-discipline predicate for a run of drag frames: every frame that
reports `drag_started` begins with no node dragged (as the host input layer
guarantees when each drag-start is preceded by the processing of the matching
drag-release). -/
def safe_drag_run (si : SettingsInteraction) (meta : Metadata) :
    List Node → List DragInput → Bool
  | _, [] => true
  | g, inp :: rest =>
    (!inp.drag_started || decide (dragged_count g = 0))
      && safe_drag_run si meta (frame_step si meta inp g).1 rest

/-- C9 (amended): after any sequence of drag frames in which every drag-start
occurs while no node is dragged, at most one node has the dragged flag set.
(Unrestricted drag-start sequences violate the invariant — see the
counterexample — because `handle_node_drag` sets the hit node's flag on
drag-start without checking for an existing dragged node.) -/
theorem drag_exclusive_of_safe_inputs (si : SettingsInteraction)
    (meta : Metadata) (inps : List DragInput) (g : List Node)
    (h1 : dragged_count g ≤ 1)
    (hsafe : safe_drag_run si meta g inps = true) :
    dragged_count (run_frames si meta inps g) ≤ 1 := by
  induction inps generalizing g with
  | nil => exact h1
  | cons inp rest ih =>
    unfold safe_drag_run at hsafe
    rw [Bool.and_eq_true] at hsafe
    obtain ⟨hhead, htail⟩ := hsafe
    have hstart : inp.drag_started = true → dragged_count g = 0 := by
      intro hs
      rw [hs] at hhead
      simpa using hhead
    have hbody : dragged_count (frame_step si meta inp g).1 ≤ 1 :=
      frame_step_dragged_le si meta inp g h1 hstart
    unfold run_frames at ih ⊢
    rw [List.foldl_cons]
    exact ih (frame_step si meta inp g).1 hbody htail

theorem drag_exclusive_of_safe_inputs_witness :
    dragged_count [(⟨⟨0, 0⟩, false, false, 1⟩ : Node)] ≤ 1
      ∧ safe_drag_run ⟨false, false, false, true⟩ ⟨1, ⟨0, 0⟩, true⟩
          [(⟨⟨0, 0⟩, false, false, 1⟩ : Node)]
          [⟨false, false, false, ⟨0, 0⟩, ⟨0, 0⟩⟩] = true
      ∧ dragged_count (run_frames ⟨false, false, false, true⟩ ⟨1, ⟨0, 0⟩, true⟩
          [⟨false, false, false, ⟨0, 0⟩, ⟨0, 0⟩⟩]
          [(⟨⟨0, 0⟩, false, false, 1⟩ : Node)]) ≤ 1 :=
  ⟨by decide, rfl,
    drag_exclusive_of_safe_inputs ⟨false, false, false, true⟩ ⟨1, ⟨0, 0⟩, true⟩
      [⟨false, false, false, ⟨0, 0⟩, ⟨0, 0⟩⟩] [⟨⟨0, 0⟩, false, false, 1⟩]
      (by decide) rfl⟩

/-- Two undragged nodes far apart. -/
def c9_g : List Node :=
  [⟨⟨0, 0⟩, false, false, 1⟩, ⟨⟨100, 100⟩, false, false, 1⟩]

/-- Two consecutive drag-start frames with no release in between: the first
starts a drag over node 0, the second over node 1. -/
def c9_inps : List DragInput :=
  [⟨true, false, false, ⟨0, 0⟩, ⟨0, 0⟩⟩,
    ⟨true, false, false, ⟨100, 100⟩, ⟨0, 0⟩⟩]

/-- C9 counterexample: `handle_node_drag` does not guard drag-start on the
dragged set being empty, so a sequence of two drag-start frames (no release
processed in between) leaves two nodes with the dragged flag set,
refuting the claim over arbitrary drag input sequences. -/
theorem drag_exclusivity_cex :
    dragged_count (run_frames ⟨false, false, false, true⟩ ⟨1, ⟨0, 0⟩, true⟩
      c9_inps c9_g) = 2 := by
  norm_num [run_frames, frame_step, GraphView.handle_node_drag, c9_inps, c9_g,
    compute_state, dragged_id, dragged_id_from, selected_ids, selected_ids_from,
    GraphWrapper.node_by_pos, find_node_from, within_radius, Vec2.length_sq,
    GraphView.set_dragged, dragged_count, List.filter]

theorem find_node_from_succ (k : Nat) (p : Vec2) (g : List Node) :
    find_node_from (k + 1) p g
      = (find_node_from k p g).map (fun r => (r.1 + 1, r.2)) := by
  induction g generalizing k with
  | nil => rfl
  | cons n rest ih =>
    by_cases h : within_radius (n.location - p) n.radius = true
    · simp [find_node_from, h]
    · simp [find_node_from, h, ih (k + 1)]

theorem find_node_from_zero_spec (p : Vec2) (g : List Node) :
    (∀ i n, find_node_from 0 p g = some (i, n) →
        g.get? i = some n
          ∧ within_radius (n.location - p) n.radius = true
          ∧ ∀ j m, j < i → g.get? j = some m →
              within_radius (m.location - p) m.radius = false)
      ∧ (find_node_from 0 p g = none →
          ∀ j m, g.get? j = some m →
            within_radius (m.location - p) m.radius = false) := by
  induction g with
  | nil =>
    constructor
    · intro i n h
      simp [find_node_from] at h
    · intro _ j m hm
      simp at hm
  | cons hd rest ih =>
    by_cases hc : within_radius (hd.location - p) hd.radius = true
    · constructor
      · intro i n h
        rw [find_node_from, if_pos hc] at h
        obtain ⟨hi, hn⟩ : 0 = i ∧ hd = n := by
          constructor <;> [exact congrArg (fun o => (o.getD (0, hd)).1) h;
            exact congrArg (fun o => (o.getD (0, hd)).2) h]
        subst hi
        subst hn
        exact ⟨rfl, hc, fun j m hj _ => absurd hj (Nat.not_lt_zero j)⟩
      · intro h
        rw [find_node_from, if_pos hc] at h
        exact Option.noConfusion h
    · have hcf : within_radius (hd.location - p) hd.radius = false :=
        Bool.not_eq_true _ ▸ Bool.of_not_eq_true hc
      constructor
      · intro i n h
        rw [find_node_from, if_neg hc, find_node_from_succ] at h
        obtain ⟨⟨i', n'⟩, hfind, heq⟩ := Option.map_eq_some'.mp h
        obtain ⟨hi, hn⟩ : i' + 1 = i ∧ n' = n := by
          constructor <;> [exact congrArg Prod.fst heq; exact congrArg Prod.snd heq]
        subst hi
        subst hn
        obtain ⟨hget, hwr, hfirst⟩ := ih.1 i' n' hfind
        refine ⟨by simpa using hget, hwr, ?_⟩
        intro j m hj hm
        cases j with
        | zero =>
          have : hd = m := by simpa using hm
          exact this ▸ hcf
        | succ j' =>
          have hj' : j' < i' := Nat.lt_of_succ_lt_succ hj
          exact hfirst j' m hj' (by simpa using hm)
      · intro h
        rw [find_node_from, if_neg hc, find_node_from_succ] at h
        have hnone : find_node_from 0 p rest = none := by
          cases hfr : find_node_from 0 p rest with
          | none => rfl
          | some v => rw [hfr] at h; simp at h
        intro j m hm
        cases j with
        | zero =>
          have : hd = m := by simpa using hm
          exact this ▸ hcf
        | succ j' =>
          exact ih.2 hnone j' m (by simpa using hm)

/-- C4 (amended): `node_by_pos` returns the *first* node in traversal order
whose boundary circle (center distance at most the computed radius) contains
the graph-space point corresponding to the query: the returned node contains
the point and every node earlier in traversal order does not; and when no
node's boundary contains the point the result is absent (and conversely an
absent result means no node contains it). -/
theorem node_by_pos_first_containing (g : List Node) (meta : Metadata)
    (pos : Vec2) :
    (∀ i n, GraphWrapper.node_by_pos g meta pos = some (i, n) →
        g.get? i = some n
          ∧ within_radius
              (n.location - graph_from_screen pos meta.pan meta.zoom) n.radius
            = true
          ∧ ∀ j m, j < i → g.get? j = some m →
              within_radius
                (m.location - graph_from_screen pos meta.pan meta.zoom) m.radius
                = false)
      ∧ (GraphWrapper.node_by_pos g meta pos = none →
          ∀ j m, g.get? j = some m →
            within_radius
              (m.location - graph_from_screen pos meta.pan meta.zoom) m.radius
              = false) :=
  find_node_from_zero_spec ((pos - meta.pan) / meta.zoom) g

theorem node_by_pos_first_containing_witness :
    [(⟨⟨0, 0⟩, false, false, 2⟩ : Node)].get? 0 = some ⟨⟨0, 0⟩, false, false, 2⟩
      ∧ within_radius ((⟨0, 0⟩ : Vec2)
          - graph_from_screen ⟨0, 0⟩ ⟨0, 0⟩ 1) 2 = true
      ∧ (∀ j m, j < 0 → [(⟨⟨0, 0⟩, false, false, 2⟩ : Node)].get? j = some m →
          within_radius (m.location - graph_from_screen ⟨0, 0⟩ ⟨0, 0⟩ 1) m.radius
            = false) := by
  have hsome : GraphWrapper.node_by_pos [(⟨⟨0, 0⟩, false, false, 2⟩ : Node)]
      ⟨1, ⟨0, 0⟩, true⟩ ⟨0, 0⟩ = some (0, ⟨⟨0, 0⟩, false, false, 2⟩) := by
    norm_num [GraphWrapper.node_by_pos, find_node_from, within_radius,
      Vec2.length_sq]
  have h := (node_by_pos_first_containing [⟨⟨0, 0⟩, false, false, 2⟩]
    ⟨1, ⟨0, 0⟩, true⟩ ⟨0, 0⟩).1 0 ⟨⟨0, 0⟩, false, false, 2⟩ hsome
  exact h

/-- Hit-test example for the counterexample: node 0 at (3,0) with radius 5,
node 1 at (0,0) with radius 1. -/
def c4_g : List Node :=
  [⟨⟨3, 0⟩, false, false, 5⟩, ⟨⟨0, 0⟩, false, false, 1⟩]

/-- C4 counterexample: with pan 0 and zoom 1, the graph point for screen query
(0,0) is (0,0).  Both nodes' boundary circles contain it, and node 1 is
strictly closer — by center distance (0 vs 3; the squared distances are the
exact squares 0² and 3²) and hence by boundary distance (1 − 0 = 1 vs
5 − 3 = 2) — yet `node_by_pos` returns node 0: it returns the first
containing node in traversal order, not the closest one. -/
theorem node_by_pos_not_closest_cex :
    (GraphWrapper.node_by_pos c4_g ⟨1, ⟨0, 0⟩, true⟩ ⟨0, 0⟩).map Prod.fst
        = some 0
      ∧ within_radius ((⟨0, 0⟩ : Vec2)
          - graph_from_screen ⟨0, 0⟩ ⟨0, 0⟩ 1) 1 = true
      ∧ Vec2.length_sq ((⟨0, 0⟩ : Vec2)
          - graph_from_screen ⟨0, 0⟩ ⟨0, 0⟩ 1) = 0 ^ 2
      ∧ Vec2.length_sq ((⟨3, 0⟩ : Vec2)
          - graph_from_screen ⟨0, 0⟩ ⟨0, 0⟩ 1) = 3 ^ 2
      ∧ (1 : ℚ) - 0 < 5 - 3 := by
  norm_num [GraphWrapper.node_by_pos, find_node_from, within_radius,
    Vec2.length_sq, graph_from_screen, c4_g]
